import Mathlib

/-!
Shallow embedding of the puper core: the selector token loop of
`cmd/root.go` (current version) and the structural serializer of
`pkg/display/display.go`.  Go's sequential writes to an `io.Writer` are
modelled as string concatenation, machine integers as `Nat`, and fallible
operations as `Except String`.
-/

namespace Puper

/-- Node kinds of the external markup parser (`golang.org/x/net/html.NodeType`,
restricted to the kinds the serializer inspects). -/
inductive NodeType where
  | documentNode
  | elementNode
  | textNode
  | commentNode
  | doctypeNode
deriving DecidableEq, Repr

/-- One attribute pair, mirroring `html.Attribute` (`Key`, `Val`). -/
structure Attrib where
  key : String
  val : String
deriving DecidableEq, Repr

/-- The parsed markup tree (`html.Node`): node type, tag atom (`DataAtom`,
rendered as its string; `""` for unknown atoms), raw data (`Data`),
attributes (`Attr`) and the ordered child list (the `FirstChild`/`NextSibling`
chain). -/
inductive HNode where
  | mk (type : NodeType) (dataAtom : String) (data : String)
       (attr : List Attrib) (children : List HNode)
deriving Repr

def HNode.type : HNode → NodeType
  | .mk t _ _ _ _ => t

def HNode.dataAtom : HNode → String
  | .mk _ a _ _ _ => a

def HNode.data : HNode → String
  | .mk _ _ d _ _ => d

def HNode.attr : HNode → List Attrib
  | .mk _ _ _ a _ => a

def HNode.children : HNode → List HNode
  | .mk _ _ _ _ c => c

/-- The sixteen tag atoms of the `switch` in `display.IsVoidElement`
(`display.go:156-164`). -/
def voidAtoms : List String :=
  ["area", "base", "br", "col", "command", "embed", "hr", "img",
   "input", "keygen", "link", "meta", "param", "source", "track", "wbr"]

/-- Boolean membership test against the sixteen void atoms. -/
def isVoidAtom (a : String) : Bool :=
  voidAtoms.contains a

/-- Translation of `display.IsVoidElement` (`display.go:156-164`): a switch on
`n.DataAtom` against the sixteen void atoms. -/
def IsVoidElement (n : HNode) : Bool :=
  isVoidAtom n.dataAtom

/-- Formatting policy of the serializer: the `display` struct of
`display.go:42-46` (the writer is modelled by returning the emitted string). -/
structure Display where
  attributes : Bool
  span : Bool
deriving DecidableEq, Repr

/-- One attribute rendered as ` key="val"`, as by `fmt.Fprintf(w, ` followed by
the format ` %s=%q`-style literal in `display.go:80`. -/
def fmtAttr (a : Attrib) : String :=
  " " ++ a.key ++ "=\"" ++ a.val ++ "\""

/-- Attribute loop of the normal rendering path (`display.go:75-81`): skip an
attribute when `!d.attributes && a.Key != "href" && a.Key != "id"`. -/
def attrsNormal (d : Display) : List Attrib → String
  | [] => ""
  | a :: rest =>
      (if !d.attributes && a.key ≠ "href" && a.key ≠ "id" then ""
       else fmtAttr a) ++ attrsNormal d rest

/-- Inner attribute loop of the preformatted path (`display.go:129-135`),
including the (dead) re-check of the suppression condition. -/
def attrsPreLoop (d : Display) : List Attrib → String
  | [] => ""
  | a :: rest =>
      (if !d.attributes && a.key ≠ "href" && a.key ≠ "id" then ""
       else fmtAttr a) ++ attrsPreLoop d rest

/-- Attribute emission of the preformatted path (`display.go:128-136`): the
whole loop is guarded by `if d.attributes`. -/
def attrsPre (d : Display) (attrs : List Attrib) : String :=
  if d.attributes then attrsPreLoop d attrs else ""

/-- Model of Go's `strings.TrimSpace` (used at `display.go:59`): strip
leading and trailing whitespace characters. -/
def trimSpace (s : String) : String :=
  String.mk
    (((s.toList.dropWhile Char.isWhitespace).reverse.dropWhile
        Char.isWhitespace).reverse)

/-- Translation of `display.PrintIndent` (`display.go:103-107`): `level`
spaces. -/
def indentStr : Nat → String
  | 0 => ""
  | n + 1 => " " ++ indentStr n

mutual

/-- Translation of `display.PrintPre` (`display.go:110-153`).  Note the
source has no `CommentNode` case: comments emit nothing. -/
def printPre (d : Display) : HNode → String
  | .mk t atom data attrs children =>
    match t with
    | .textNode => data ++ printPreList d children
    | .elementNode =>
        if atom = "span" && !d.span then
          (if !isVoidAtom atom then printPreList d children else "")
        else
          "<" ++ data ++ attrsPre d attrs ++ ">" ++
          (if !isVoidAtom atom then
             printPreList d children ++
             (if atom = "pre" then "</" ++ data ++ ">\n" else "</" ++ data ++ ">")
           else "")
    | .commentNode => ""
    | .documentNode => printPreList d children
    | .doctypeNode => printPreList d children

/-- The `for c := n.FirstChild; ...` loops inside `PrintPre`. -/
def printPreList (d : Display) : List HNode → String
  | [] => ""
  | c :: cs => printPre d c ++ printPreList d cs

end

mutual

/-- Translation of `display.PrintNode` (`display.go:55-92`).  The source has
no `CommentNode` case: comments emit nothing.  For elements the indent is
emitted before the `pre`/`span` dispatch. -/
def printNode (d : Display) : HNode → Nat → String
  | .mk t atom data attrs children, level =>
    match t with
    | .textNode =>
        let s := trimSpace data
        if s ≠ "" then indentStr level ++ s ++ "\n" else ""
    | .elementNode =>
        indentStr level ++
        (if atom = "pre" then
           printPre d (.mk t atom data attrs children)
         else if atom = "span" && !d.span then
           printChildren d children level
         else
           "<" ++ data ++ attrsNormal d attrs ++ ">\n" ++
           (if !isVoidAtom atom then
              printChildren d children (level + 1) ++
              indentStr level ++ "</" ++ data ++ ">\n"
            else ""))
    | .commentNode => ""
    | .documentNode => printChildren d children level
    | .doctypeNode => printChildren d children level

/-- Translation of `display.PrintChildren` (`display.go:95-101`). -/
def printChildren (d : Display) : List HNode → Nat → String
  | [], _ => ""
  | c :: cs, level => printNode d c level ++ printChildren d cs level

end

/-- Translation of `display.Print` (`display.go:48-52`): every selected node
is rendered at indent level 0. -/
def printAll (d : Display) (nodes : List HNode) : String :=
  printChildren d nodes 0

/-- One simple selector produced by the selector compiler (spec §4.1): tag
name, `#id`, `.class`, `[name]` or `[name=value]`. -/
inductive SimpleSel where
  | tagSel (t : String)
  | idSel (s : String)
  | classSel (s : String)
  | attrPresent (k : String)
  | attrEq (k v : String)
deriving DecidableEq, Repr

/-- CompiledSelector (spec §3): a compound of simple selectors, all of which
must hold. -/
abbrev CompiledSelector := List SimpleSel

def isIdentChar (c : Char) : Bool :=
  c.isAlphanum || c = '-' || c = '_'

/-- Longest prefix of identifier characters, with the rest of the input. -/
def takeIdent : List Char → String × List Char
  | [] => ("", [])
  | c :: cs =>
      if isIdentChar c then
        let (s, rest) := takeIdent cs
        (String.mk (c :: s.toList), rest)
      else
        ("", c :: cs)

/-- Split an attribute-test body at the first `=`, giving `[name]` or
`[name=value]`. -/
def splitAttrBody (body : List Char) : SimpleSel :=
  match body.findIdx? (· = '=') with
  | none => .attrPresent (String.mk body)
  | some i => .attrEq (String.mk (body.take i)) (String.mk (body.drop (i + 1)))

/-- Modelled from the spec: the body of the selector compiler (spec §4.1);
the repository's `ParseSelector` is only called from `cmd/root.go` and its
definition is not under `src/`.  Scans a compound selector left to right:
`#ident`, `.ident`, `[name]`/`[name=value]` (failing on an unclosed `[`),
or a bare tag name; anything else is a syntax error.  `fuel` bounds the
recursion by the input length. -/
def parseSimples (orig : String) : Nat → List Char → Except String (List SimpleSel)
  | 0, _ => .error ("selector too long: " ++ orig)
  | _, [] => .ok []
  | fuel + 1, c :: cs =>
      if c = '#' then
        let (name, rest) := takeIdent cs
        if name = "" then .error ("empty id selector in: " ++ orig)
        else
          match parseSimples orig fuel rest with
          | .error e => .error e
          | .ok ss => .ok (.idSel name :: ss)
      else if c = '.' then
        let (name, rest) := takeIdent cs
        if name = "" then .error ("empty class selector in: " ++ orig)
        else
          match parseSimples orig fuel rest with
          | .error e => .error e
          | .ok ss => .ok (.classSel name :: ss)
      else if c = '[' then
        match cs.findIdx? (· = ']') with
        | none => .error ("unclosed attribute selector: " ++ orig)
        | some i =>
            match parseSimples orig fuel (cs.drop (i + 1)) with
            | .error e => .error e
            | .ok ss => .ok (splitAttrBody (cs.take i) :: ss)
      else if isIdentChar c then
        let (name, rest) := takeIdent (c :: cs)
        match parseSimples orig fuel rest with
        | .error e => .error e
        | .ok ss => .ok (.tagSel name :: ss)
      else
        .error ("unexpected character in selector: " ++ orig)

/-- Modelled from the spec: `ParseSelector` (spec §4.1, §6 `Compile`); the
repository's definition is not under `src/`.  Compiles one
selector-expression token or fails with a syntax error naming the token. -/
def ParseSelector (s : String) : Except String CompiledSelector :=
  if s = "" then .error "empty selector"
  else parseSimples s (s.length + 1) s.toList

def getAttr (attrs : List Attrib) (k : String) : Option String :=
  (attrs.find? (fun a => a.key == k)).map (·.val)

/-- Modelled from the spec: the node matching predicate (spec §4.3) — only
element nodes match; comparisons are exact strings; `.class` matches a token
of the space-separated `class` attribute. -/
def matchesSimple (n : HNode) : SimpleSel → Bool
  | .tagSel t => n.data == t
  | .idSel s => getAttr n.attr "id" == some s
  | .classSel s =>
      match getAttr n.attr "class" with
      | some cls => (cls.splitOn " ").contains s
      | none => false
  | .attrPresent k => (getAttr n.attr k).isSome
  | .attrEq k v => getAttr n.attr k == some v

/-- Modelled from the spec: `matches(node, CompiledSelector)` (spec §4.3,
§3): all compounded simple selectors must hold, and only elements match. -/
def nodeMatches (sel : CompiledSelector) (n : HNode) : Bool :=
  n.type == .elementNode && sel.all (matchesSimple n)

theorem sizeOf_children_lt (c : HNode) : sizeOf c.children < sizeOf c := by
  cases c
  simp [HNode.children]

/-- Modelled from the spec: the descendant search rule (spec §4.2) over a
sibling list — every node of the forest, depth-first in document order,
satisfying the predicate. -/
def selectDescList (sel : CompiledSelector) : List HNode → List HNode
  | [] => []
  | c :: cs =>
      (if nodeMatches sel c then [c] else []) ++
      selectDescList sel c.children ++ selectDescList sel cs
termination_by l => sizeOf l
decreasing_by
  · have := sizeOf_children_lt c
    simp_wf
    omega
  · simp_wf

/-- Modelled from the spec: `Select` (descendant search, spec §4.2): the
subtree of the context node excluding itself. -/
def selectDesc (sel : CompiledSelector) (n : HNode) : List HNode :=
  selectDescList sel n.children

mutual

/-- Structural equality on nodes, standing in for Go pointer identity when
locating a context node inside the tree. -/
def beqNode : HNode → HNode → Bool
  | .mk t1 a1 d1 at1 c1, .mk t2 a2 d2 at2 c2 =>
      t1 == t2 && a1 == a2 && d1 == d2 && at1 == at2 && beqNodeList c1 c2

def beqNodeList : List HNode → List HNode → Bool
  | [], [] => true
  | x :: xs, y :: ys => beqNode x y && beqNodeList xs ys
  | _, _ => false

end

mutual

/-- Nodes immediately following an occurrence of `target` in some child list
of the subtree rooted at the scanned node. -/
def followersIn (target : HNode) : HNode → List HNode
  | .mk _ _ _ _ children => followersInList target children

def followersInList (target : HNode) : List HNode → List HNode
  | [] => []
  | [c] => followersIn target c
  | a :: b :: rest =>
      (if beqNode a target then [b] else []) ++
      followersIn target a ++ followersInList target (b :: rest)

end

/-- Modelled from the spec: `SelectNextSibling` (spec §4.2): for each context
node, test only the single immediately-following sibling.  Sibling lookup
walks the tree from the root, standing in for the parser's sibling
back-references. -/
def selectNextSibling (root : HNode) (sel : CompiledSelector)
    (ctx : List HNode) : List HNode :=
  ctx.flatMap (fun c => (followersIn c root).filter (nodeMatches sel))

/-- Modelled from the spec: `SelectFromChildren` (child search, spec §4.2):
test only the direct children of each context node. -/
def selectFromChildrenF (sel : CompiledSelector) (ctx : List HNode) :
    List HNode :=
  ctx.flatMap (fun c => c.children.filter (nodeMatches sel))

/-- The generator modes mutated while scanning tokens in `cmd/root.go`
(`funcGenerator`, `root.go:539-559`). -/
inductive FuncGen where
  | select
  | selectFromChildren
  | selectNextSibling
deriving DecidableEq, Repr

/-- One entry of the `selectorFuncs` slice of `cmd/root.go:538-561`: `none`
models the `nil` appended for a `,`, and `some (gen, sel)` models the closure
`funcGenerator(selector)`. -/
abbrev SelectorFunc := Option (FuncGen × CompiledSelector)

/-- Translation of the token-scanning loop of `cmd/root.go:538-561`:
`*` is skipped, `>` and `+` set the generator for the next
selector-expression, `,` appends `nil`, and a selector-expression is
compiled (aborting the whole pass on error) and paired with the current
generator, which then resets to `Select`. -/
def parseSelectorFuncs (tokens : List String) (gen : FuncGen) :
    Except String (List SelectorFunc) :=
  match tokens with
  | [] => .ok []
  | tok :: rest =>
      if tok = "*" then parseSelectorFuncs rest gen
      else if tok = ">" then parseSelectorFuncs rest .selectFromChildren
      else if tok = "+" then parseSelectorFuncs rest .selectNextSibling
      else if tok = "," then
        match parseSelectorFuncs rest gen with
        | .error e => .error e
        | .ok fs => .ok (none :: fs)
      else
        match ParseSelector tok with
        | .error e => .error e
        | .ok sel =>
            match parseSelectorFuncs rest .select with
            | .error e => .error e
            | .ok fs => .ok (some (gen, sel) :: fs)

/-- Application of one compiled step to the current node set, dispatching on
the generator mode (the closures built at `root.go:558`). -/
def applyFunc (root : HNode) (gen : FuncGen) (sel : CompiledSelector)
    (ctx : List HNode) : List HNode :=
  match gen with
  | .select => ctx.flatMap (selectDesc sel)
  | .selectFromChildren => selectFromChildrenF sel ctx
  | .selectNextSibling => selectNextSibling root sel ctx

/-- Translation of the execution loop of `cmd/root.go:563-573`: a `nil`
entry (comma) appends `currNodes` to `selectedNodes` and restarts from
`[root]`; otherwise the step replaces `currNodes`; the final `currNodes` is
appended after the loop. -/
def runFuncs (root : HNode) : List SelectorFunc → List HNode → List HNode →
    List HNode
  | [], selected, curr => selected ++ curr
  | none :: rest, selected, curr => runFuncs root rest (selected ++ curr) [root]
  | some (gen, sel) :: rest, selected, curr =>
      runFuncs root rest selected (applyFunc root gen sel curr)

/-- Compile-then-execute pipeline over a token list (`root.go:538-573`),
starting with `funcGenerator := Select` and `currNodes := [root]`. -/
def Execute (tokens : List String) (root : HNode) :
    Except String (List HNode) :=
  match parseSelectorFuncs tokens .select with
  | .error e => .error e
  | .ok fs => .ok (runFuncs root fs [] [root])

/-- The whole per-invocation core (`root.go:538-590`): compile and execute
the tokens, then serialize the selected nodes; a compile error aborts before
any output. -/
def runPipeline (tokens : List String) (root : HNode) (d : Display) :
    Except String String :=
  match Execute tokens root with
  | .error e => .error e
  | .ok ns => .ok (printAll d ns)

/-! Concrete fixture nodes and policies used by witnesses and
counterexamples. -/

def textX : HNode := .mk .textNode "" "x" [] []

def bNode : HNode := .mk .elementNode "b" "b" [] [textX]

def spanB : HNode := .mk .elementNode "span" "span" [] [bNode]

def spanA : HNode := .mk .elementNode "span" "span" [] []

def divN : HNode := .mk .elementNode "div" "div" [] [spanA]

def root0 : HNode := .mk .documentNode "" "" [] [divN]

def preHref : HNode := .mk .elementNode "pre" "pre" [⟨"href", "x"⟩] []

def commentHi : HNode := .mk .commentNode "" "hi" [] []

def preNested : HNode :=
  .mk .elementNode "pre" "pre" []
    [.mk .textNode "" "a" [] [],
     .mk .elementNode "pre" "pre" [] [.mk .textNode "" "b" [] []],
     .mk .textNode "" "c" [] []]

/-- Concatenation of a list of strings in order, as the serializer's
sequential writes produce it. -/
def strConcat : List String → String
  | [] => ""
  | s :: rest => s ++ strConcat rest

/-- Child lists the pre-mode traversal recurses into (`display.go:110-153`):
text, document and doctype nodes always, element nodes only when not void;
comments have no case and are never entered. -/
def visitedChildren : HNode → List HNode
  | .mk .textNode _ _ _ ch => ch
  | .mk .elementNode atom _ _ ch => if isVoidAtom atom then [] else ch
  | .mk .commentNode _ _ _ _ => []
  | .mk .documentNode _ _ _ ch => ch
  | .mk .doctypeNode _ _ _ ch => ch

/-- A text node reachable by the pre-mode traversal inside a forest: at the
top of the forest, inside a visited child list, or further along the
forest. -/
inductive TextIn : HNode → List HNode → Prop where
  | here (t : HNode) (rest : List HNode) (h : t.type = .textNode) :
      TextIn t (t :: rest)
  | inside (c : HNode) (rest : List HNode) (t : HNode)
      (h : TextIn t (visitedChildren c)) : TextIn t (c :: rest)
  | tail (c : HNode) (rest : List HNode) (t : HNode)
      (h : TextIn t rest) : TextIn t (c :: rest)

/-! Helper lemmas. -/

theorem parseSelectorFuncs_allStar :
    ∀ (tokens : List String), (∀ t ∈ tokens, t = "*") →
      ∀ gen, parseSelectorFuncs tokens gen = .ok [] := by
  intro tokens
  induction tokens with
  | nil => intro _ gen; rfl
  | cons head rest ih =>
      intro h gen
      have hh : head = "*" := h head (by simp)
      subst hh
      simpa [parseSelectorFuncs] using
        ih (fun t ht => h t (by simp [ht])) gen

theorem parseSelectorFuncs_error_of_bad_token :
    ∀ (tokens : List String) (gen : FuncGen) (tok : String),
      tok ∈ tokens → tok ≠ "*" → tok ≠ ">" → tok ≠ "+" → tok ≠ "," →
      (∃ e, ParseSelector tok = .error e) →
      ∃ e, parseSelectorFuncs tokens gen = .error e := by
  intro tokens
  induction tokens with
  | nil => intro gen tok h; cases h
  | cons head rest ih =>
      intro gen tok hmem h1 h2 h3 h4 h5
      rcases List.mem_cons.mp hmem with heq | hrest
      · subst heq
        obtain ⟨e, he⟩ := h5
        exact ⟨e, by simp [parseSelectorFuncs, h1, h2, h3, h4, he]⟩
      · by_cases hh1 : head = "*"
        · subst hh1
          simpa [parseSelectorFuncs] using
            ih gen tok hrest h1 h2 h3 h4 h5
        · by_cases hh2 : head = ">"
          · subst hh2
            obtain ⟨e, he⟩ :=
              ih .selectFromChildren tok hrest h1 h2 h3 h4 h5
            exact ⟨e, by simp [parseSelectorFuncs, he]⟩
          · by_cases hh3 : head = "+"
            · subst hh3
              obtain ⟨e, he⟩ :=
                ih .selectNextSibling tok hrest h1 h2 h3 h4 h5
              exact ⟨e, by simp [parseSelectorFuncs, he]⟩
            · by_cases hh4 : head = ","
              · subst hh4
                obtain ⟨e, he⟩ := ih gen tok hrest h1 h2 h3 h4 h5
                exact ⟨e, by simp [parseSelectorFuncs, he]⟩
              · cases hps : ParseSelector head with
                | error e =>
                    exact ⟨e, by
                      simp [parseSelectorFuncs, hh1, hh2, hh3, hh4, hps]⟩
                | ok sel =>
                    obtain ⟨e, he⟩ := ih .select tok hrest h1 h2 h3 h4 h5
                    exact ⟨e, by
                      simp [parseSelectorFuncs, hh1, hh2, hh3, hh4, hps, he]⟩

theorem attrsNormal_eq_filter (d : Display) :
    ∀ attrs : List Attrib,
      attrsNormal d attrs =
        strConcat ((attrs.filter
          (fun a => d.attributes || a.key == "href" || a.key == "id")).map
            fmtAttr) := by
  intro attrs
  induction attrs with
  | nil => rfl
  | cons a rest ih =>
      by_cases hh : a.key = "href"
      · simp [attrsNormal, List.filter_cons, strConcat, hh, ih]
      · by_cases hi : a.key = "id"
        · simp [attrsNormal, List.filter_cons, strConcat, hh, hi, ih]
        · cases hA : d.attributes <;>
            simp [attrsNormal, List.filter_cons, strConcat, hA, hh, hi, ih,
              String.empty_append]

theorem attrsPreLoop_all (d : Display) (hA : d.attributes = true) :
    ∀ attrs : List Attrib,
      attrsPreLoop d attrs = strConcat (attrs.map fmtAttr) := by
  intro attrs
  induction attrs with
  | nil => rfl
  | cons a rest ih => simp [attrsPreLoop, strConcat, hA, ih]

theorem isVoidAtom_ne_pre {atom : String} (hv : isVoidAtom atom = true) :
    atom ≠ "pre" := by
  intro h; subst h; simp [isVoidAtom, voidAtoms] at hv

theorem isVoidAtom_ne_span {atom : String} (hv : isVoidAtom atom = true) :
    atom ≠ "span" := by
  intro h; subst h; simp [isVoidAtom, voidAtoms] at hv

theorem printPre_decomp (d : Display) (c : HNode) :
    ∃ A B, printPre d c = A ++ printPreList d (visitedChildren c) ++ B := by
  cases c with
  | mk t atom data attrs ch =>
      cases t with
      | textNode =>
          exact ⟨data, "", by
            simp [printPre, visitedChildren, String.append_empty]⟩
      | elementNode =>
          by_cases hv : isVoidAtom atom = true
          · refine ⟨"<" ++ data ++ attrsPre d attrs ++ ">", "", ?_⟩
            have hspan := isVoidAtom_ne_span hv
            simp [printPre, visitedChildren, printPreList, hv, hspan,
              String.append_empty]
          · rw [Bool.not_eq_true] at hv
            have hsv : isVoidAtom "span" = false := rfl
            by_cases hs : atom = "span" ∧ d.span = false
            · obtain ⟨hs1, hs2⟩ := hs
              refine ⟨"", "", ?_⟩
              simp [printPre, visitedChildren, hv, hs1, hs2, hsv,
                String.empty_append, String.append_empty]
            · refine ⟨"<" ++ data ++ attrsPre d attrs ++ ">",
                (if atom = "pre" then "</" ++ data ++ ">\n"
                 else "</" ++ data ++ ">"), ?_⟩
              by_cases hsp : atom = "span"
              · cases hbs : d.span with
                | false => exact absurd ⟨hsp, hbs⟩ hs
                | true =>
                    simp [printPre, visitedChildren, hv, hbs,
                      String.append_assoc]
              · simp [printPre, visitedChildren, hv, hsp,
                  String.append_assoc]
      | commentNode =>
          exact ⟨"", "", by simp [printPre, visitedChildren, printPreList]⟩
      | documentNode =>
          exact ⟨"", "", by
            simp [printPre, visitedChildren, String.empty_append,
              String.append_empty]⟩
      | doctypeNode =>
          exact ⟨"", "", by
            simp [printPre, visitedChildren, String.empty_append,
              String.append_empty]⟩

theorem textIn_contiguous (d : Display) (t : HNode) (forest : List HNode)
    (h : TextIn t forest) :
    ∃ a b, printPreList d forest = a ++ t.data ++ b := by
  induction h with
  | here t rest ht =>
      cases t with
      | mk ty atom data attrs ch =>
          simp only [HNode.type] at ht
          subst ht
          refine ⟨"", printPreList d ch ++ printPreList d rest, ?_⟩
          simp [printPreList, printPre, HNode.data, String.empty_append,
            String.append_assoc]
  | inside c rest t hin ih =>
      obtain ⟨a, b, hab⟩ := ih
      obtain ⟨A, B, hAB⟩ := printPre_decomp d c
      refine ⟨A ++ a, b ++ (B ++ printPreList d rest), ?_⟩
      simp [printPreList, hAB, hab, String.append_assoc]
  | tail c rest t hin ih =>
      obtain ⟨a, b, hab⟩ := ih
      exact ⟨printPre d c ++ a, b, by
        simp [printPreList, hab, String.append_assoc]⟩

/-! Claim theorems. -/

/-- C1: for every document root, executing the token list
`["div", ",", "span"]` yields exactly the concatenation of the node lists
produced by executing `["div"]` and `["span"]` alone: the branch after the
`,` restarts from `[root]`, branch results are appended in token order, and
no state is shared between branches. -/
theorem union_branches_concat (root : HNode) :
    Execute ["div", ",", "span"] root =
      (Execute ["div"] root).bind fun dv =>
        (Execute ["span"] root).map fun sp => dv ++ sp := rfl

/-- C8: for every document root, a token list that is empty or contains only
`*` tokens yields exactly `[root]`: each `*` token appends no matching
step. -/
theorem star_tokens_yield_root (tokens : List String) (root : HNode)
    (h : ∀ t ∈ tokens, t = "*") : Execute tokens root = .ok [root] := by
  simp [Execute, parseSelectorFuncs_allStar tokens h .select, runFuncs]

/-- Witness for C8 at the concrete token list `["*", "*"]`. -/
theorem star_tokens_yield_root_witness :
    (∀ t ∈ (["*", "*"] : List String), t = "*") ∧
      Execute ["*", "*"] root0 = .ok [root0] :=
  ⟨by decide, star_tokens_yield_root ["*", "*"] root0 (by decide)⟩

/-- C9: a token list containing a selector-expression token that fails to
compile makes the whole invocation abort: the pipeline returns the syntax
error, and the serializer is never reached (no output string is produced). -/
theorem compile_error_aborts (tokens : List String) (root : HNode)
    (d : Display) (tok : String) (hmem : tok ∈ tokens) (h1 : tok ≠ "*")
    (h2 : tok ≠ ">") (h3 : tok ≠ "+") (h4 : tok ≠ ",")
    (h5 : ∃ e, ParseSelector tok = .error e) :
    ∃ e, runPipeline tokens root d = .error e := by
  obtain ⟨e, he⟩ :=
    parseSelectorFuncs_error_of_bad_token tokens .select tok hmem h1 h2 h3
      h4 h5
  exact ⟨e, by simp [runPipeline, Execute, he]⟩

/-- Witness for C9 at the malformed token `"[bad"`. -/
theorem compile_error_aborts_witness :
    ("[bad" ∈ (["div", ",", "[bad"] : List String)) ∧
      (∃ e, ParseSelector "[bad" = .error e) ∧
      ∃ e, runPipeline ["div", ",", "[bad"] root0 ⟨true, true⟩ = .error e :=
  ⟨by decide, ⟨"unclosed attribute selector: [bad", rfl⟩,
    compile_error_aborts ["div", ",", "[bad"] root0 ⟨true, true⟩ "[bad"
      (by decide) (by decide) (by decide) (by decide) (by decide)
      ⟨"unclosed attribute selector: [bad", rfl⟩⟩

/-- C10: `IsVoidElement` returns true exactly when the node's tag atom is
one of the sixteen listed atoms, and the result depends only on the tag
atom, never on the node's type, attributes or children. -/
theorem isVoidElement_sixteen_atoms :
    (∀ n : HNode, IsVoidElement n = true ↔
      n.dataAtom ∈ (["area", "base", "br", "col", "command", "embed", "hr",
        "img", "input", "keygen", "link", "meta", "param", "source",
        "track", "wbr"] : List String)) ∧
    (∀ (a : String) (t₁ t₂ : NodeType) (d₁ d₂ : String)
       (l₁ l₂ : List Attrib) (c₁ c₂ : List HNode),
       IsVoidElement (.mk t₁ a d₁ l₁ c₁) = IsVoidElement (.mk t₂ a d₂ l₂ c₂)) := by
  constructor
  · intro n
    simp [IsVoidElement, isVoidAtom, voidAtoms]
  · intro a t₁ t₂ d₁ d₂ l₁ l₂ c₁ c₂
    rfl

/-- C2 counterexample: in the token list `["div", ">", ",", "span"]` the
`>` is not consumed before the `,`, and the `span` after the `,` is applied
with the child rule, not the descendant rule: on a document whose only
`span` is a grandchild of the root, the second branch comes back empty,
whereas a descendant search would find it. -/
theorem comma_pending_combinator_cex :
    Execute ["div", ">", ",", "span"] root0 = .ok [divN] ∧
    Execute ["div", ",", "span"] root0 = .ok [divN, spanA] ∧
    ([divN] : List HNode) ≠ [divN, spanA] := by
  refine ⟨?_, ?_, ?_⟩
  · simp [Execute, parseSelectorFuncs, ParseSelector, parseSimples, takeIdent,
      isIdentChar, runFuncs, applyFunc, selectDesc, selectDescList,
      nodeMatches, matchesSimple, selectFromChildrenF, root0, divN, spanA,
      HNode.children, HNode.data, HNode.type, getAttr]
  · simp [Execute, parseSelectorFuncs, ParseSelector, parseSimples, takeIdent,
      isIdentChar, runFuncs, applyFunc, selectDesc, selectDescList,
      nodeMatches, matchesSimple, selectFromChildrenF, root0, divN, spanA,
      HNode.children, HNode.data, HNode.type, getAttr]
  · intro h
    simpa using congrArg List.length h

/-- C2 as amended: a `,` token appends the current branch and restarts from
the root, but it does not reset the pending combinator: the
selector-expression immediately after the `,` is compiled against whatever
generator was pending before the `,`; the generator resets to the
descendant rule only after a selector-expression consumes it. -/
theorem comma_keeps_pending_combinator (gen : FuncGen) (tok : String)
    (rest : List String) (sel : CompiledSelector) (h1 : tok ≠ "*")
    (h2 : tok ≠ ">") (h3 : tok ≠ "+") (h4 : tok ≠ ",")
    (h5 : ParseSelector tok = .ok sel) :
    parseSelectorFuncs ("," :: tok :: rest) gen =
      match parseSelectorFuncs rest .select with
      | .ok fs => .ok (none :: some (gen, sel) :: fs)
      | .error e => .error e := by
  cases hr : parseSelectorFuncs rest .select <;>
    simp [parseSelectorFuncs, h1, h2, h3, h4, h5, hr]

/-- Witness for the amended C2: after a `>` left pending, the `span`
following the `,` is compiled with the child generator. -/
theorem comma_keeps_pending_combinator_witness :
    ParseSelector "span" = .ok [.tagSel "span"] ∧
      parseSelectorFuncs [",", "span"] .selectFromChildren =
        .ok [none, some (.selectFromChildren, [.tagSel "span"])] :=
  ⟨rfl, by
    have h := comma_keeps_pending_combinator .selectFromChildren "span" []
      [.tagSel "span"] (by decide) (by decide) (by decide) (by decide) rfl
    simpa using h⟩

/-- C3 counterexample: in the preformatted path with `showAttributes` off,
an `href` attribute is not emitted (the whole attribute loop sits under
`if d.attributes`), contradicting the claim that `href` is always shown in
both rendering modes. -/
theorem pre_attr_filter_cex :
    printNode ⟨false, true⟩ preHref 0 = "<pre></pre>\n" ∧
      ("<pre></pre>\n" : String) ≠ "<pre href=\"x\"></pre>\n" := by
  constructor
  · simp [printNode, printPre, printPreList, attrsPre, attrsPreLoop,
      indentStr, isVoidAtom, voidAtoms, preHref]
  · decide

/-- C3 as amended: in normal rendering an attribute is emitted iff
`showAttributes` is true or its key is `href` or `id`; in preformatted
rendering attributes are emitted only when `showAttributes` is true, and
then all of them (the inner filter there is dead code), so `href`/`id` are
dropped in pre-mode when `showAttributes` is false. -/
theorem attr_emission_rule (d : Display) (attrs : List Attrib) :
    attrsNormal d attrs =
      strConcat ((attrs.filter
        (fun a => d.attributes || a.key == "href" || a.key == "id")).map
          fmtAttr) ∧
    attrsPre d attrs =
      (if d.attributes = true then strConcat (attrs.map fmtAttr) else "") := by
  refine ⟨attrsNormal_eq_filter d attrs, ?_⟩
  cases hA : d.attributes
  · simp [attrsPre, hA]
  · simp [attrsPre, hA, attrsPreLoop_all d hA attrs]

/-- C4 counterexample: at indent level 1 with span suppression on,
serializing `<span><b>x</b></span>` is not byte-identical to serializing
`<b>x</b>`: the span still contributes its own indent before unwrapping. -/
theorem span_unwrap_indent_cex :
    printNode ⟨true, false⟩ spanB 1 = "  <b>\n  x\n </b>\n" ∧
    printNode ⟨true, false⟩ bNode 1 = " <b>\n  x\n </b>\n" ∧
    printNode ⟨true, false⟩ spanB 1 ≠ printNode ⟨true, false⟩ bNode 1 := by
  refine ⟨?_, ?_, ?_⟩ <;>
    simp [printNode, printChildren, printPre, printPreList, attrsNormal,
      fmtAttr, indentStr, isVoidAtom, voidAtoms, spanB, bNode, textX] <;>
    decide

/-- C4 as amended: with span suppression on, a span element unwraps to its
children at the same indent level, but only after emitting the indent
prefix of the current level; the outputs coincide exactly at indent level
0, and differ by that leading indent otherwise. -/
theorem span_unwrap_with_indent (d : Display) (data : String)
    (attrs : List Attrib) (children : List HNode) (level : Nat)
    (hspan : d.span = false) :
    printNode d (.mk .elementNode "span" data attrs children) level =
      indentStr level ++ printChildren d children level := by
  simp [printNode, hspan]

/-- Witness for the amended C4 at indent level 1. -/
theorem span_unwrap_with_indent_witness :
    (Display.span ⟨true, false⟩ = false) ∧
      printNode ⟨true, false⟩ (.mk .elementNode "span" "span" [] [bNode]) 1 =
        indentStr 1 ++ printChildren ⟨true, false⟩ [bNode] 1 :=
  ⟨rfl, span_unwrap_with_indent ⟨true, false⟩ "span" [] [bNode] 1 rfl⟩

/-- C5 counterexample: a comment node with payload `hi` produces no output
at all in the current serializer, not `<!--hi-->` with a line break. -/
theorem comment_output_cex :
    printNode ⟨true, true⟩ commentHi 0 = "" ∧
      ("" : String) ≠ "<!--hi-->\n" := by
  constructor
  · simp [printNode, commentHi]
  · decide

/-- C5 as amended: the current serializer (`pkg/display`) has no comment
case at all: a comment node emits nothing and its children are not visited,
in both the normal and the preformatted path. -/
theorem comment_emits_nothing (d : Display) (atom s : String)
    (attrs : List Attrib) (children : List HNode) (level : Nat) :
    printNode d (.mk .commentNode atom s attrs children) level = "" ∧
    printPre d (.mk .commentNode atom s attrs children) = "" := by
  constructor <;> simp [printNode, printPre]

/-- C6: an element whose tag atom is void emits only its opening tag — no
closing tag and no recursion into children — in both the normal and the
preformatted rendering path, for every formatting policy. -/
theorem void_element_no_close_no_children (d : Display) (level : Nat)
    (atom data : String) (attrs : List Attrib) (children : List HNode)
    (hv : isVoidAtom atom = true) :
    printNode d (.mk .elementNode atom data attrs children) level =
      indentStr level ++ ("<" ++ data ++ attrsNormal d attrs ++ ">\n") ∧
    printPre d (.mk .elementNode atom data attrs children) =
      "<" ++ data ++ attrsPre d attrs ++ ">" := by
  have hpre := isVoidAtom_ne_pre hv
  have hspan := isVoidAtom_ne_span hv
  constructor
  · simp [printNode, hpre, hspan, hv, String.append_empty]
  · simp [printPre, hspan, hv, String.append_empty]

/-- Witness for C6 at a `br` element with a (never-visited) child. -/
theorem void_element_no_close_no_children_witness :
    isVoidAtom "br" = true ∧
      (printNode ⟨true, true⟩ (.mk .elementNode "br" "br" [] [textX]) 0 =
          indentStr 0 ++
            ("<" ++ "br" ++ attrsNormal ⟨true, true⟩ [] ++ ">\n") ∧
        printPre ⟨true, true⟩ (.mk .elementNode "br" "br" [] [textX]) =
          "<" ++ "br" ++ attrsPre ⟨true, true⟩ [] ++ ">") :=
  ⟨rfl, void_element_no_close_no_children ⟨true, true⟩ 0 "br" "br" [] [textX]
    rfl⟩

/-- C7 counterexample: in `<pre>a<pre>b</pre>c</pre>` no text node contains
a line break, yet the serializer inserts one after the nested pre's closing
tag (`display.go:142-143`), so the interior does not round-trip
byte-for-byte: the output differs from the rendering with no inserted line
breaks inside the outer wrapper. -/
theorem pre_roundtrip_cex :
    printPre ⟨true, true⟩ preNested = "<pre>a<pre>b</pre>\nc</pre>\n" ∧
      ("<pre>a<pre>b</pre>\nc</pre>\n" : String) ≠
        "<pre>a<pre>b</pre>c</pre>\n" := by
  constructor
  · simp [printPre, printPreList, attrsPre, attrsPreLoop, isVoidAtom,
      voidAtoms, preNested]
  · decide

/-- C7 as amended: a preformatted element emits its opening tag wrapper,
then its children in raw pre-mode, then the closing tag followed by a
trailing line break, and every text node the pre-mode traversal reaches —
at any depth — contributes its payload contiguously, untrimmed, with no
inserted indentation; but a line break is also inserted after the closing
tag of every nested pre-atom element, so the interior round-trips
byte-for-byte only in the absence of nested pre elements.  Entering from
the normal path only prefixes the current indent before the wrapper. -/
theorem pre_raw_text_emission (d : Display) (data : String)
    (attrs : List Attrib) (children : List HNode) (level : Nat) (t : HNode)
    (ht : TextIn t children) :
    (∃ a b, printPreList d children = a ++ t.data ++ b) ∧
    printPre d (.mk .elementNode "pre" data attrs children) =
      "<" ++ data ++ attrsPre d attrs ++ ">" ++ printPreList d children ++
        ("</" ++ data ++ ">\n") ∧
    printNode d (.mk .elementNode "pre" data attrs children) level =
      indentStr level ++
        printPre d (.mk .elementNode "pre" data attrs children) := by
  refine ⟨textIn_contiguous d t children ht, ?_, ?_⟩
  · have hv : isVoidAtom "pre" = false := rfl
    simp [printPre, hv, String.append_assoc]
  · simp [printNode]

/-- Witness for the amended C7 at the text node `b` nested one pre level
down inside `preNested`. -/
theorem pre_raw_text_emission_witness :
    TextIn (HNode.mk .textNode "" "b" [] [])
      [HNode.mk .textNode "" "a" [] [],
       HNode.mk .elementNode "pre" "pre" []
         [HNode.mk .textNode "" "b" [] []],
       HNode.mk .textNode "" "c" [] []] ∧
    ((∃ a b, printPreList ⟨true, true⟩
        [HNode.mk .textNode "" "a" [] [],
         HNode.mk .elementNode "pre" "pre" []
           [HNode.mk .textNode "" "b" [] []],
         HNode.mk .textNode "" "c" [] []] =
          a ++ (HNode.mk .textNode "" "b" [] []).data ++ b) ∧
      printPre ⟨true, true⟩ preNested =
        "<" ++ "pre" ++ attrsPre ⟨true, true⟩ [] ++ ">" ++
          printPreList ⟨true, true⟩
            [HNode.mk .textNode "" "a" [] [],
             HNode.mk .elementNode "pre" "pre" []
               [HNode.mk .textNode "" "b" [] []],
             HNode.mk .textNode "" "c" [] []] ++
          ("</" ++ "pre" ++ ">\n") ∧
      printNode ⟨true, true⟩ preNested 2 =
        indentStr 2 ++ printPre ⟨true, true⟩ preNested) :=
  ⟨TextIn.tail _ _ _ (TextIn.inside _ _ _ (TextIn.here _ _ rfl)),
    pre_raw_text_emission ⟨true, true⟩ "pre" []
      [HNode.mk .textNode "" "a" [] [],
       HNode.mk .elementNode "pre" "pre" []
         [HNode.mk .textNode "" "b" [] []],
       HNode.mk .textNode "" "c" [] []] 2 (HNode.mk .textNode "" "b" [] [])
      (TextIn.tail _ _ _ (TextIn.inside _ _ _ (TextIn.here _ _ rfl)))⟩

end Puper
